import Mathlib

/-!
Shallow embedding of the MCP (Model Context Protocol) client manager,
configuration storage and extended-message codec of the `ai-mcp-client`
repository, together with proofs about the behaviour its specification
describes.

Vocabulary note: the specification names the connection statuses
{not-connected, connecting, connected, failed}; the code stores the strings
"disconnected" | "connecting" | "connected" | "error".  The constructors
below keep the code's names, so spec "failed" is `.error` and spec
"not-connected" is `.disconnected`.

Opaque JavaScript values (`unknown` payloads that the manager forwards
without inspecting) are modelled by the type `JSValue := String`; nothing in
the development looks inside them.
-/

namespace MCP

/-- Opaque stand-in for a JavaScript `unknown` value that the code only
passes through. -/
abbrev JSValue := String

/-- Connection status, `ConnectionStatus` in `types.ts`:
"disconnected" | "connecting" | "connected" | "error". -/
inductive ConnectionStatus
| disconnected
| connecting
| connected
| error
deriving DecidableEq, Repr

/-- The `StdioConfig` interface: command plus optional args/env/cwd. -/
structure StdioConfig where
  command : String
  args : Option (List String)
  env : Option (List (String × String))
  cwd : Option String
deriving DecidableEq, Repr

/-- The `HttpConfig` interface: url plus optional headers. -/
structure HttpConfig where
  url : String
  headers : Option (List (String × String))
deriving DecidableEq, Repr

/-- The `MCPServerConfig` interface.  `transportType` is kept as a raw
string because the code's `switch` has a `default` branch for values
outside the declared union. -/
structure MCPServerConfig where
  id : String
  name : String
  transportType : String
  stdioConfig : Option StdioConfig
  httpConfig : Option HttpConfig
  enabled : Bool
  createdAt : Nat
  updatedAt : Nat
deriving DecidableEq, Repr

/-- The `MCPServerStatus` interface. -/
structure MCPServerStatus where
  serverId : String
  status : ConnectionStatus
  error : Option String
  lastConnected : Option Nat
deriving DecidableEq, Repr

/-- The `MCPTool` interface. -/
structure MCPTool where
  name : String
  description : Option String
  inputSchema : Option JSValue
deriving DecidableEq, Repr

/-- One entry of `MCPPrompt.arguments`. -/
structure PromptArgument where
  name : String
  description : Option String
  required : Option Bool
deriving DecidableEq, Repr

/-- The `MCPPrompt` interface. -/
structure MCPPrompt where
  name : String
  description : Option String
  arguments : Option (List PromptArgument)
deriving DecidableEq, Repr

/-- The `MCPResource` interface. -/
structure MCPResource where
  uri : String
  name : String
  description : Option String
  mimeType : Option String
deriving DecidableEq, Repr

/-- The `MCPServerCapabilities` interface: the three capability lists. -/
structure MCPServerCapabilities where
  tools : List MCPTool
  prompts : List MCPPrompt
  resources : List MCPResource
deriving DecidableEq, Repr

/-- A constructed, not-yet-connected transport: the value
`createTransport` returns, one variant per `switch` branch. -/
inductive Transport
| stdio (command : String) (args : Option (List String))
    (env : Option (List (String × String))) (cwd : Option String)
| streamableHttp (url : String) (headers : Option (List (String × String)))
| sse (url : String)
deriving DecidableEq, Repr

/-- The behaviour of a live remote client handle (the SDK `Client` after a
successful handshake): the results its capability queries and invocation
methods would produce.  `Except.error msg` models a rejected promise whose
error carries `msg`. -/
structure Client where
  listTools : Except String (List MCPTool)
  listPrompts : Except String (List MCPPrompt)
  listResources : Except String (List MCPResource)
  callTool : String → List (String × JSValue) → Except String JSValue
  getPrompt : String → Option (List (String × String)) → Except String JSValue
  readResource : String → Except String JSValue

/-- The external world `connect` interacts with: the outcome of
`client.connect(transport)` for each transport.  A successful handshake
yields the live client's behaviour. -/
structure Env where
  handshake : Transport → Except String Client

/-- The `ManagedClient` interface: one registry entry.  The code stores
`null as unknown as Client` for a failed connection; that null is `none`
here. -/
structure ManagedClient where
  client : Option Client
  config : MCPServerConfig
  status : MCPServerStatus
  capabilities : Option MCPServerCapabilities

/-- The manager's `Map<string, ManagedClient>`, as an association list in
insertion order. -/
abbrev Registry := List (String × ManagedClient)

/-- The empty registry (a fresh manager instance). -/
def mapEmpty : Registry := []

/-- JavaScript `Map.get`: the value at the matching key, if any. -/
def mapGet : Registry → String → Option ManagedClient
  | [], _ => none
  | (a, b) :: t, k => if a = k then some b else mapGet t k

/-- JavaScript `Map.set`: overwrite in place when the key is present,
append otherwise (`Map` preserves insertion order). -/
def mapSet : Registry → String → ManagedClient → Registry
  | [], k, v => [(k, v)]
  | (a, b) :: t, k, v =>
      if a = k then (k, v) :: t else (a, b) :: mapSet t k v

/-- The `createTransport` method: selects and builds a transport from the
configuration, or throws (an `Except.error` carrying the thrown error's
message) before any network activity.  `new URL(...)` is modelled as
total; no claim exercises a malformed URL string. -/
def createTransport (config : MCPServerConfig) : Except String Transport :=
  if config.transportType = "stdio" then
    match config.stdioConfig with
    | none => .error "STDIO config is required for STDIO transport"
    | some sc => .ok (.stdio sc.command sc.args sc.env sc.cwd)
  else if config.transportType = "streamable-http" then
    match config.httpConfig with
    | none => .error "HTTP config is required for Streamable HTTP transport"
    | some hc => .ok (.streamableHttp hc.url hc.headers)
  else if config.transportType = "sse" then
    match config.httpConfig with
    | none => .error "HTTP config is required for SSE transport"
    | some hc => .ok (.sse hc.url)
  else .error ("Unsupported transport type: " ++ config.transportType)

/-- The `fetchCapabilities` method: the three queries run under
`Promise.allSettled`, so each is evaluated independently and a rejected
one contributes an empty list. -/
def fetchCapabilities (client : Client) : MCPServerCapabilities :=
  { tools :=
      match client.listTools with
      | .ok ts => ts.map (fun t => ⟨t.name, t.description, t.inputSchema⟩)
      | .error _ => []
    prompts :=
      match client.listPrompts with
      | .ok ps => ps.map (fun p => ⟨p.name, p.description, p.arguments⟩)
      | .error _ => []
    resources :=
      match client.listResources with
      | .ok rs => rs.map (fun r => ⟨r.uri, r.name, r.description, r.mimeType⟩)
      | .error _ => [] }

/-- The catch-branch of `connect`: store a record with a null client, the
caught message and status "error" (the spec's "failed"), and return that
status. -/
def connectFail (config : MCPServerConfig) (st : Registry) (msg : String) :
    MCPServerStatus × Registry :=
  let errorStatus : MCPServerStatus := ⟨config.id, .error, some msg, none⟩
  (errorStatus, mapSet st config.id ⟨none, config, errorStatus, none⟩)

/-- The try-branch of `connect`: build the transport, hand it to
`client.connect`, fetch capabilities, store the connected record.  Any
throw falls into `connectFail`. -/
def connectAttempt (env : Env) (now : Nat) (config : MCPServerConfig)
    (st : Registry) : MCPServerStatus × Registry :=
  match createTransport config with
  | .error msg => connectFail config st msg
  | .ok transport =>
      match env.handshake transport with
      | .error msg => connectFail config st msg
      | .ok client =>
          let capabilities := fetchCapabilities client
          let connectedStatus : MCPServerStatus :=
            ⟨config.id, .connected, none, some now⟩
          (connectedStatus,
            mapSet st config.id
              ⟨some client, config, connectedStatus, some capabilities⟩)

/-- The `connect` method.  `env` is the external world, `now` the value of
`Date.now()`.  Returns the status handed back to the caller and the
updated registry; the TypeScript function never throws and neither branch
here escapes `Except`. -/
def connect (env : Env) (now : Nat) (config : MCPServerConfig)
    (st : Registry) : MCPServerStatus × Registry :=
  match mapGet st config.id with
  | some existingClient =>
      if existingClient.status.status = .connected then
        (existingClient.status, st)
      else connectAttempt env now config st
  | none => connectAttempt env now config st

/-- The `disconnect` method.  The close attempt inside the record branch
only logs on failure, so the result does not depend on the close outcome;
note the record update `{ ...managedClient, status, capabilities: null }`
keeps the old `client` field. -/
def disconnect (st : Registry) (serverId : String) :
    MCPServerStatus × Registry :=
  match mapGet st serverId with
  | none => (⟨serverId, .disconnected, none, none⟩, st)
  | some managedClient =>
      let status : MCPServerStatus := ⟨serverId, .disconnected, none, none⟩
      (status,
        mapSet st serverId
          { managedClient with status := status, capabilities := none })

/-- The guard of the close attempt inside `disconnect`:
`managedClient.client && managedClient.status.status === "connected"`.
True exactly when `disconnect` would call `client.close()`. -/
def closeAttempted (st : Registry) (serverId : String) : Bool :=
  match mapGet st serverId with
  | none => false
  | some managedClient =>
      managedClient.client.isSome &&
        managedClient.status.status == .connected

/-- The `getStatus` method: stored status, or a synthesized
"disconnected" one. -/
def getStatus (st : Registry) (serverId : String) : MCPServerStatus :=
  match mapGet st serverId with
  | some managedClient => managedClient.status
  | none => ⟨serverId, .disconnected, none, none⟩

/-- The `getAllStatuses` method: the status of every tracked entry, in
insertion order. -/
def getAllStatuses (st : Registry) : List MCPServerStatus :=
  st.map (fun p => p.2.status)

/-- The `getCapabilities` method: `clients.get(id)?.capabilities ?? null`. -/
def getCapabilities (st : Registry) (serverId : String) :
    Option MCPServerCapabilities :=
  match mapGet st serverId with
  | some managedClient => managedClient.capabilities
  | none => none

/-- The error message thrown by the three invocation methods on a missing
or not-connected record. -/
def notConnectedMsg (serverId : String) : String :=
  "Server " ++ serverId ++ " is not connected"

/-- A JavaScript `TypeError` from invoking a method on the null client
stored by a failed connect; unreachable from states the code can produce
(see `connected_record_has_client`). -/
def nullClientCrash : String :=
  "TypeError: cannot invoke a method of null"

/-- The `callTool` method: guard, then forward to the live handle with
`arguments: args ?? {}`. -/
def callTool (st : Registry) (serverId toolName : String)
    (args : Option (List (String × JSValue))) : Except String JSValue :=
  match mapGet st serverId with
  | none => .error (notConnectedMsg serverId)
  | some managedClient =>
      if managedClient.status.status = .connected then
        match managedClient.client with
        | some client => client.callTool toolName (args.getD [])
        | none => .error nullClientCrash
      else .error (notConnectedMsg serverId)

/-- The `getPrompt` method: guard, then forward with `arguments: args`
passed through unchanged. -/
def getPrompt (st : Registry) (serverId promptName : String)
    (args : Option (List (String × String))) : Except String JSValue :=
  match mapGet st serverId with
  | none => .error (notConnectedMsg serverId)
  | some managedClient =>
      if managedClient.status.status = .connected then
        match managedClient.client with
        | some client => client.getPrompt promptName args
        | none => .error nullClientCrash
      else .error (notConnectedMsg serverId)

/-- The `readResource` method: guard, then forward the uri. -/
def readResource (st : Registry) (serverId uri : String) :
    Except String JSValue :=
  match mapGet st serverId with
  | none => .error (notConnectedMsg serverId)
  | some managedClient =>
      if managedClient.status.status = .connected then
        match managedClient.client with
        | some client => client.readResource uri
        | none => .error nullClientCrash
      else .error (notConnectedMsg serverId)

/-- The `disconnectAll` method: disconnect every currently tracked id.
Each `disconnect` reads and writes only its own key, so the concurrent
`Promise.all` is modelled by the left fold over the key list. -/
def disconnectAll (st : Registry) : Registry :=
  (st.map (fun p => p.1)).foldl (fun acc id => (disconnect acc id).2) st

/-! ### Lemmas about the key-value store -/

theorem mapGet_empty (k : String) : mapGet mapEmpty k = none := rfl

theorem mapGet_set_self (st : Registry) (k : String) (v : ManagedClient) :
    mapGet (mapSet st k v) k = some v := by
  induction st with
  | nil => simp [mapSet, mapGet]
  | cons a t ih =>
      obtain ⟨ak, av⟩ := a
      by_cases hak : ak = k
      · simp [mapSet, mapGet, hak]
      · simp [mapSet, mapGet, hak, ih]

theorem mapGet_set_ne (st : Registry) (k k' : String) (v : ManagedClient)
    (h : k' ≠ k) : mapGet (mapSet st k v) k' = mapGet st k' := by
  induction st with
  | nil =>
      have hne : ¬ (k = k') := fun e => h e.symm
      simp [mapSet, mapGet, hne]
  | cons a t ih =>
      obtain ⟨ak, av⟩ := a
      by_cases hak : ak = k
      · subst hak
        have hne : ¬ (ak = k') := fun e => h e.symm
        simp [mapSet, mapGet, hne]
      · simp [mapSet, mapGet, hak, ih]

theorem mapSet_set (st : Registry) (k : String) (v w : ManagedClient) :
    mapSet (mapSet st k v) k w = mapSet st k w := by
  induction st with
  | nil => simp [mapSet]
  | cons a t ih =>
      obtain ⟨ak, av⟩ := a
      by_cases hak : ak = k
      · simp [mapSet, hak]
      · simp [mapSet, hak, ih]

theorem mapGet_set_none (st : Registry) (k k' : String) (v : ManagedClient)
    (h : mapGet st k' = none) (hne : k' ≠ k) :
    mapGet (mapSet st k v) k' = none := by
  rw [mapGet_set_ne st k k' v hne, h]

theorem mapGet_mem (st : Registry) (k : String) (v : ManagedClient)
    (h : mapGet st k = some v) : (k, v) ∈ st := by
  induction st with
  | nil => cases h
  | cons a t ih =>
      obtain ⟨ak, av⟩ := a
      by_cases hak : ak = k
      · subst hak
        simp only [mapGet, if_true] at h
        cases h
        exact List.mem_cons_self _ _
      · simp only [mapGet, if_neg hak] at h
        exact List.mem_cons_of_mem _ (ih h)

/-! ### Lemmas about connect and disconnect -/

theorem connect_of_transport_error (env : Env) (now : Nat)
    (config : MCPServerConfig) (st : Registry) (msg : String)
    (hguard : ∀ mc, mapGet st config.id = some mc →
      mc.status.status ≠ .connected)
    (hct : createTransport config = .error msg) :
    connect env now config st =
      (⟨config.id, .error, some msg, none⟩,
        mapSet st config.id
          ⟨none, config, ⟨config.id, .error, some msg, none⟩, none⟩) := by
  have hA : connectAttempt env now config st =
      (⟨config.id, .error, some msg, none⟩,
        mapSet st config.id
          ⟨none, config, ⟨config.id, .error, some msg, none⟩, none⟩) := by
    simp [connectAttempt, hct, connectFail]
  unfold connect
  cases hm : mapGet st config.id with
  | none => simpa using hA
  | some ec =>
      have hne := hguard ec hm
      simpa [hne] using hA

theorem connect_of_handshake_error (env : Env) (now : Nat)
    (config : MCPServerConfig) (st : Registry) (tr : Transport)
    (msg : String)
    (hguard : ∀ mc, mapGet st config.id = some mc →
      mc.status.status ≠ .connected)
    (hct : createTransport config = .ok tr)
    (hhs : env.handshake tr = .error msg) :
    connect env now config st =
      (⟨config.id, .error, some msg, none⟩,
        mapSet st config.id
          ⟨none, config, ⟨config.id, .error, some msg, none⟩, none⟩) := by
  have hA : connectAttempt env now config st =
      (⟨config.id, .error, some msg, none⟩,
        mapSet st config.id
          ⟨none, config, ⟨config.id, .error, some msg, none⟩, none⟩) := by
    simp [connectAttempt, hct, hhs, connectFail]
  unfold connect
  cases hm : mapGet st config.id with
  | none => simpa using hA
  | some ec =>
      have hne := hguard ec hm
      simpa [hne] using hA

theorem connect_of_handshake_ok (env : Env) (now : Nat)
    (config : MCPServerConfig) (st : Registry) (tr : Transport)
    (client : Client)
    (hguard : ∀ mc, mapGet st config.id = some mc →
      mc.status.status ≠ .connected)
    (hct : createTransport config = .ok tr)
    (hhs : env.handshake tr = .ok client) :
    connect env now config st =
      (⟨config.id, .connected, none, some now⟩,
        mapSet st config.id
          ⟨some client, config, ⟨config.id, .connected, none, some now⟩,
            some (fetchCapabilities client)⟩) := by
  have hA : connectAttempt env now config st =
      (⟨config.id, .connected, none, some now⟩,
        mapSet st config.id
          ⟨some client, config, ⟨config.id, .connected, none, some now⟩,
            some (fetchCapabilities client)⟩) := by
    simp [connectAttempt, hct, hhs]
  unfold connect
  cases hm : mapGet st config.id with
  | none => simpa using hA
  | some ec =>
      have hne := hguard ec hm
      simpa [hne] using hA

theorem disconnect_get_ne (st : Registry) (id id' : String)
    (h : id ≠ id') : mapGet (disconnect st id').2 id = mapGet st id := by
  unfold disconnect
  cases hm : mapGet st id' with
  | none => rfl
  | some mc => exact mapGet_set_ne st id' id _ h

theorem disconnect_get_self (st : Registry) (id : String)
    (mc : ManagedClient) (h : mapGet st id = some mc) :
    mapGet (disconnect st id).2 id =
      some { mc with status := ⟨id, .disconnected, none, none⟩,
                     capabilities := none } := by
  unfold disconnect
  rw [h]
  exact mapGet_set_self st id _

theorem disconnect_get_isSome (st : Registry) (id id' : String)
    (h : (mapGet st id).isSome) :
    (mapGet (disconnect st id').2 id).isSome := by
  by_cases he : id = id'
  · subst he
    obtain ⟨mc, hmc⟩ := Option.isSome_iff_exists.mp h
    rw [disconnect_get_self st id mc hmc]
    rfl
  · rw [disconnect_get_ne st id id' he]
    exact h

theorem disconnect_get_none (st : Registry) (id id' : String)
    (h : mapGet st id = none) :
    mapGet (disconnect st id').2 id = none := by
  by_cases he : id = id'
  · subst he
    unfold disconnect
    rw [h]
    exact h
  · rw [disconnect_get_ne st id id' he, h]

/-- The per-entry observation `disconnectAll` is proved to establish:
status "disconnected" and no capability snapshot. -/
def DiscObs (st : Registry) (id : String) : Prop :=
  (mapGet st id).map (fun mc => (mc.status, mc.capabilities)) =
    some (⟨id, .disconnected, none, none⟩, none)

theorem discObs_step (st : Registry) (id id' : String)
    (h : DiscObs st id) : DiscObs (disconnect st id').2 id := by
  by_cases he : id = id'
  · subst he
    unfold DiscObs at h ⊢
    cases hm : mapGet st id with
    | none => rw [hm] at h; cases h
    | some mc =>
        rw [hm] at h
        rw [disconnect_get_self st id mc hm]
        simp
  · unfold DiscObs at h ⊢
    rw [disconnect_get_ne st id id' he]
    exact h

theorem discObs_fold (L : List String) (st : Registry) (id : String)
    (h : DiscObs st id) :
    DiscObs (L.foldl (fun acc i => (disconnect acc i).2) st) id := by
  induction L generalizing st with
  | nil => exact h
  | cons a L ih => exact ih _ (discObs_step st id a h)

theorem discObs_establish (L : List String) (st : Registry) (id : String)
    (hmem : id ∈ L) (hsome : (mapGet st id).isSome) :
    DiscObs (L.foldl (fun acc i => (disconnect acc i).2) st) id := by
  induction L generalizing st with
  | nil => cases hmem
  | cons a L ih =>
      by_cases he : id = a
      · subst he
        obtain ⟨mc, hmc⟩ := Option.isSome_iff_exists.mp hsome
        have h1 : DiscObs (disconnect st id).2 id := by
          unfold DiscObs
          rw [disconnect_get_self st id mc hmc]
          rfl
        exact discObs_fold L _ id h1
      · rcases List.mem_cons.mp hmem with he' | hmem'
        · exact absurd he' he
        · exact ih _ hmem' (disconnect_get_isSome st id a hsome)

/-! ### The connected-implies-live-handle invariant -/

/-- Every tracked record with status "connected" holds a non-null client
handle. -/
def ConnectedHasClient (st : Registry) : Prop :=
  ∀ id mc, mapGet st id = some mc → mc.status.status = .connected →
    mc.client.isSome

theorem connectedHasClient_mapSet (st : Registry) (k : String)
    (v : ManagedClient) (hInv : ConnectedHasClient st)
    (hv : v.status.status = .connected → v.client.isSome) :
    ConnectedHasClient (mapSet st k v) := by
  intro id mc hget hconn
  by_cases he : id = k
  · subst he
    rw [mapGet_set_self] at hget
    cases hget
    exact hv hconn
  · rw [mapGet_set_ne st k id v he] at hget
    exact hInv id mc hget hconn

theorem connectAttempt_preserves_inv (env : Env) (now : Nat)
    (config : MCPServerConfig) (st : Registry)
    (hInv : ConnectedHasClient st) :
    ConnectedHasClient (connectAttempt env now config st).2 := by
  cases hct : createTransport config with
  | error msg =>
      simp only [connectAttempt, hct, connectFail]
      exact connectedHasClient_mapSet st config.id _ hInv
        (fun h => by simp at h)
  | ok tr =>
      cases hhs : env.handshake tr with
      | error msg =>
          simp only [connectAttempt, hct, hhs, connectFail]
          exact connectedHasClient_mapSet st config.id _ hInv
            (fun h => by simp at h)
      | ok client =>
          simp only [connectAttempt, hct, hhs]
          exact connectedHasClient_mapSet st config.id _ hInv
            (fun _ => rfl)

theorem connect_preserves_inv (env : Env) (now : Nat)
    (config : MCPServerConfig) (st : Registry)
    (hInv : ConnectedHasClient st) :
    ConnectedHasClient (connect env now config st).2 := by
  unfold connect
  cases hm : mapGet st config.id with
  | some ec =>
      by_cases hc : ec.status.status = .connected
      · simpa [hc] using hInv
      · simpa [hc] using connectAttempt_preserves_inv env now config st hInv
  | none => exact connectAttempt_preserves_inv env now config st hInv

theorem disconnect_preserves_inv (st : Registry) (id : String)
    (hInv : ConnectedHasClient st) :
    ConnectedHasClient (disconnect st id).2 := by
  unfold disconnect
  cases hm : mapGet st id with
  | none => exact hInv
  | some mc =>
      exact connectedHasClient_mapSet st id _ hInv (fun h => by simp at h)

theorem disconnectAll_preserves_inv (st : Registry)
    (hInv : ConnectedHasClient st) :
    ConnectedHasClient (disconnectAll st) := by
  unfold disconnectAll
  generalize st.map (fun p => p.1) = L
  induction L generalizing st with
  | nil => exact hInv
  | cons a L ih => exact ih _ (disconnect_preserves_inv st a hInv)

/-! ### Concrete fixtures used by witnesses and counterexamples -/

/-- A remote client whose queries and invocations all succeed. -/
def clientW : Client :=
  { listTools := .ok []
    listPrompts := .ok []
    listResources := .ok []
    callTool := fun _ _ => .ok "tool-result"
    getPrompt := fun _ _ => .ok "prompt-result"
    readResource := fun _ => .ok "resource-contents" }

/-- A world in which every handshake succeeds with `clientW`. -/
def envW : Env := ⟨fun _ => .ok clientW⟩

/-- A world in which every handshake is refused. -/
def envRefuseW : Env := ⟨fun _ => .error "connection refused"⟩

/-- A well-formed stdio server configuration with id "a". -/
def cfgW : MCPServerConfig :=
  ⟨"a", "srv", "stdio", some ⟨"npx", none, none, none⟩, none, true, 0, 0⟩

/-- A configuration with id "b" whose transport kind is unrecognized. -/
def cfgBadW : MCPServerConfig :=
  ⟨"b", "bad", "bogus", none, none, true, 0, 0⟩

/-- A second configuration sharing id "a" but differing in every other
field from `cfgW`. -/
def cfgW2 : MCPServerConfig :=
  ⟨"a", "renamed", "sse", none, some ⟨"http://x", none⟩, false, 1, 2⟩

/-- A registry holding one connected record for id "a". -/
def stConnW : Registry :=
  [("a", ⟨some clientW, cfgW, ⟨"a", .connected, none, some 7⟩,
    some ⟨[], [], []⟩⟩)]

/-- A remote client whose tools query fails while prompts and resources
succeed with one element each. -/
def clientToolsFailW : Client :=
  { listTools := .error "Method not found"
    listPrompts := .ok [⟨"p", none, none⟩]
    listResources := .ok [⟨"file:r", "r", none, none⟩]
    callTool := fun _ _ => .ok "tool-result"
    getPrompt := fun _ _ => .ok "prompt-result"
    readResource := fun _ => .ok "resource-contents" }

/-- A world in which every handshake succeeds with `clientToolsFailW`. -/
def envToolsFailW : Env := ⟨fun _ => .ok clientToolsFailW⟩

/-! ### C1 -/

/-- C1: on any failure during transport construction or handshake,
`connect` stores a Connection Record for `config.id` with status "error"
(the spec's "failed"), the caught error's message, a null client handle
and a null capability snapshot, and returns that status value to the
caller — `connect` is a total function returning the status, never an
exception. -/
theorem connect_failure_stores_failed_record (env : Env) (now : Nat)
    (config : MCPServerConfig) (st : Registry) (msg : String)
    (hguard : ∀ mc, mapGet st config.id = some mc →
      mc.status.status ≠ .connected)
    (hfail : createTransport config = .error msg ∨
      ∃ tr, createTransport config = .ok tr ∧
        env.handshake tr = .error msg) :
    connect env now config st =
      (⟨config.id, .error, some msg, none⟩,
        mapSet st config.id
          ⟨none, config, ⟨config.id, .error, some msg, none⟩, none⟩) ∧
    mapGet (connect env now config st).2 config.id =
      some ⟨none, config, ⟨config.id, .error, some msg, none⟩, none⟩ := by
  have h : connect env now config st =
      (⟨config.id, .error, some msg, none⟩,
        mapSet st config.id
          ⟨none, config, ⟨config.id, .error, some msg, none⟩, none⟩) := by
    rcases hfail with hct | ⟨tr, hct, hhs⟩
    · exact connect_of_transport_error env now config st msg hguard hct
    · exact connect_of_handshake_error env now config st tr msg hguard hct hhs
  refine ⟨h, ?_⟩
  rw [h]
  exact mapGet_set_self st config.id _

/-- Witness for C1 at a concrete input: a refused handshake for `cfgW`
on the empty registry yields the "error" status carrying the message. -/
theorem connect_failure_stores_failed_record_witness :
    connect envRefuseW 3 cfgW mapEmpty =
      (⟨"a", .error, some "connection refused", none⟩,
        mapSet mapEmpty "a"
          ⟨none, cfgW, ⟨"a", .error, some "connection refused", none⟩,
            none⟩) :=
  (connect_failure_stores_failed_record envRefuseW 3 cfgW mapEmpty
    "connection refused"
    (by intro mc h; cases h)
    (Or.inr ⟨.stdio "npx" none none none, rfl, rfl⟩)).1

/-! ### C2 -/

/-- C2 counterexample: after a single failed `connect` (for id "b", whose
transport kind is unrecognized, so the server never successfully
connected and is not connecting), a record for "b" is nevertheless
present in the registry and `getStatus` does not synthesize the
"disconnected" status — refuting the claimed absence invariant. -/
theorem registry_absence_counterexample :
    (connect envW 0 cfgBadW mapEmpty).1.status = .error ∧
    (mapGet (connect envW 0 cfgBadW mapEmpty).2 "b").isSome = true ∧
    getStatus (connect envW 0 cfgBadW mapEmpty).2 "b" ≠
      ⟨"b", .disconnected, none, none⟩ := by
  refine ⟨rfl, rfl, ?_⟩
  intro h
  cases h

/-- C2 (amended): every tracked record with status "connected" holds a
non-null client handle, and this is preserved by connect, disconnect and
disconnectAll; a record can exist only for an id that was passed to
connect (operations never create records under other ids), and for an
absent id `getStatus` synthesizes the "disconnected" status.  (A failed
connect does store a record, so absence cannot be claimed for every
never-successfully-connected server; see
`registry_absence_counterexample`.) -/
theorem registry_invariant_amended :
    ConnectedHasClient mapEmpty ∧
    (∀ env now config st, ConnectedHasClient st →
      ConnectedHasClient (connect env now config st).2) ∧
    (∀ st id, ConnectedHasClient st →
      ConnectedHasClient (disconnect st id).2) ∧
    (∀ st, ConnectedHasClient st →
      ConnectedHasClient (disconnectAll st)) ∧
    (∀ st id, mapGet st id = none →
      getStatus st id = ⟨id, .disconnected, none, none⟩) ∧
    (∀ env now config st id, id ≠ config.id → mapGet st id = none →
      mapGet (connect env now config st).2 id = none) ∧
    (∀ st id id', mapGet st id = none →
      mapGet (disconnect st id').2 id = none) ∧
    (∀ st id, mapGet st id = none →
      mapGet (disconnectAll st) id = none) := by
  refine ⟨?_, connect_preserves_inv, disconnect_preserves_inv,
    disconnectAll_preserves_inv, ?_, ?_, disconnect_get_none, ?_⟩
  · intro id mc h
    cases h
  · intro st id h
    unfold getStatus
    rw [h]
  · intro env now config st id hne h
    unfold connect
    cases hm : mapGet st config.id with
    | some ec =>
        by_cases hc : ec.status.status = .connected
        · simpa [hc] using h
        · simp only [hc, if_false]
          cases hct : createTransport config with
          | error msg =>
              simp only [connectAttempt, hct, connectFail]
              exact mapGet_set_none st config.id id _ h hne
          | ok tr =>
              cases hhs : env.handshake tr with
              | error msg =>
                  simp only [connectAttempt, hct, hhs, connectFail]
                  exact mapGet_set_none st config.id id _ h hne
              | ok client =>
                  simp only [connectAttempt, hct, hhs]
                  exact mapGet_set_none st config.id id _ h hne
    | none =>
        cases hct : createTransport config with
        | error msg =>
            simp only [connectAttempt, hct, connectFail]
            exact mapGet_set_none st config.id id _ h hne
        | ok tr =>
            cases hhs : env.handshake tr with
            | error msg =>
                simp only [connectAttempt, hct, hhs, connectFail]
                exact mapGet_set_none st config.id id _ h hne
            | ok client =>
                simp only [connectAttempt, hct, hhs]
                exact mapGet_set_none st config.id id _ h hne
  · intro st id h
    unfold disconnectAll
    generalize st.map (fun p => p.1) = L
    induction L generalizing st with
    | nil => exact h
    | cons a L ih => exact ih _ (disconnect_get_none st id a h)

/-- Witness for C2 (amended) at concrete inputs: the invariant holds after
a successful connect on the empty registry, and `getStatus` of an
untouched id is the synthesized "disconnected" status. -/
theorem registry_invariant_amended_witness :
    ConnectedHasClient (connect envW 5 cfgW mapEmpty).2 ∧
    getStatus mapEmpty "q" = ⟨"q", .disconnected, none, none⟩ :=
  ⟨registry_invariant_amended.2.1 envW 5 cfgW mapEmpty
      registry_invariant_amended.1,
    registry_invariant_amended.2.2.2.2.1 mapEmpty "q" rfl⟩

/-! ### C3 -/

/-- C3: `callTool` / `getPrompt` / `readResource` fail immediately with
the "not connected" error when no record exists for the id or its status
is not "connected" (the error is a local constant, so the remote server
is never contacted); when a connected record with a live handle exists,
each call is forwarded verbatim to that handle and its result or failure
is returned unchanged (`callTool` substitutes `args ?? {}`). -/
theorem invocation_guard_and_forward (st : Registry)
    (serverId toolName promptName uri : String)
    (args : Option (List (String × JSValue)))
    (pargs : Option (List (String × String))) :
    ((mapGet st serverId = none ∨
        ∃ mc, mapGet st serverId = some mc ∧
          mc.status.status ≠ .connected) →
      callTool st serverId toolName args =
        .error (notConnectedMsg serverId) ∧
      getPrompt st serverId promptName pargs =
        .error (notConnectedMsg serverId) ∧
      readResource st serverId uri = .error (notConnectedMsg serverId)) ∧
    (∀ mc c, mapGet st serverId = some mc →
      mc.status.status = .connected → mc.client = some c →
      callTool st serverId toolName args =
        c.callTool toolName (args.getD []) ∧
      getPrompt st serverId promptName pargs =
        c.getPrompt promptName pargs ∧
      readResource st serverId uri = c.readResource uri) := by
  constructor
  · intro h
    rcases h with h | ⟨mc, hmc, hne⟩
    · refine ⟨?_, ?_, ?_⟩ <;> simp [callTool, getPrompt, readResource, h]
    · refine ⟨?_, ?_, ?_⟩ <;>
        simp [callTool, getPrompt, readResource, hmc, hne]
  · intro mc c hmc hconn hcl
    refine ⟨?_, ?_, ?_⟩ <;>
      simp [callTool, getPrompt, readResource, hmc, hconn, hcl]

/-- Witness for C3 at concrete inputs: an unknown id is rejected with the
"not connected" error, and a connected id's tool call is the live
handle's result. -/
theorem invocation_guard_and_forward_witness :
    callTool mapEmpty "z" "echo" none =
      .error (notConnectedMsg "z") ∧
    callTool stConnW "a" "echo" none = .ok "tool-result" :=
  ⟨((invocation_guard_and_forward mapEmpty "z" "echo" "p" "u" none
        none).1 (Or.inl rfl)).1,
    ((invocation_guard_and_forward stConnW "a" "echo" "p" "u" none
        none).2 _ clientW rfl rfl rfl).1⟩

/-! ### C4 -/

/-- C4: if exactly one of the three capability queries fails during
connect, the stored Capability Snapshot has an empty list for that
category and the other two queries' lists for the others; the failure is
not surfaced (the connect status record carries no error) and the
resulting status is still "connected", with the snapshot stored. -/
theorem capability_partial_failure (client : Client) (e : String)
    (ts : List MCPTool) (ps : List MCPPrompt) (rs : List MCPResource) :
    (client.listTools = .error e → client.listPrompts = .ok ps →
      client.listResources = .ok rs →
      fetchCapabilities client = ⟨[], ps, rs⟩) ∧
    (client.listTools = .ok ts → client.listPrompts = .error e →
      client.listResources = .ok rs →
      fetchCapabilities client = ⟨ts, [], rs⟩) ∧
    (client.listTools = .ok ts → client.listPrompts = .ok ps →
      client.listResources = .error e →
      fetchCapabilities client = ⟨ts, ps, []⟩) ∧
    (∀ env now config st tr,
      (∀ mc, mapGet st config.id = some mc →
        mc.status.status ≠ .connected) →
      createTransport config = .ok tr → env.handshake tr = .ok client →
      connect env now config st =
        (⟨config.id, .connected, none, some now⟩,
          mapSet st config.id
            ⟨some client, config, ⟨config.id, .connected, none, some now⟩,
              some (fetchCapabilities client)⟩)) := by
  refine ⟨?_, ?_, ?_, ?_⟩
  · intro hT hP hR
    simp [fetchCapabilities, hT, hP, hR]
  · intro hT hP hR
    simp [fetchCapabilities, hT, hP, hR]
  · intro hT hP hR
    simp [fetchCapabilities, hT, hP, hR]
  · intro env now config st tr hguard hct hhs
    exact connect_of_handshake_ok env now config st tr client hguard hct hhs

/-- Witness for C4 at a concrete input: a client whose tools query fails
yields an empty tools list next to the other two lists, and connecting
through it still returns the "connected" status with no error. -/
theorem capability_partial_failure_witness :
    fetchCapabilities clientToolsFailW =
      ⟨[], [⟨"p", none, none⟩], [⟨"file:r", "r", none, none⟩]⟩ ∧
    (connect envToolsFailW 4 cfgW mapEmpty).1 =
      ⟨"a", .connected, none, some 4⟩ := by
  have h := capability_partial_failure clientToolsFailW "Method not found"
    [] [⟨"p", none, none⟩] [⟨"file:r", "r", none, none⟩]
  refine ⟨h.1 rfl rfl rfl, ?_⟩
  rw [h.2.2.2 envToolsFailW 4 cfgW mapEmpty (.stdio "npx" none none none)
    (by intro mc hc; cases hc) rfl rfl]
  rfl

/-! ### C5 -/

/-- C5: `connect` is idempotent on a connected id: when a record for
`config.id` already has status "connected", `connect` returns that
record's current status and leaves the registry unmodified, for every
environment, clock value and supplied configuration carrying that id —
in particular no transport is constructed and nothing is validated
against the stored configuration. -/
theorem connect_idempotent_on_connected (env : Env) (now : Nat)
    (config : MCPServerConfig) (st : Registry) (mc : ManagedClient)
    (hget : mapGet st config.id = some mc)
    (hconn : mc.status.status = .connected) :
    connect env now config st = (mc.status, st) := by
  unfold connect
  rw [hget]
  simp [hconn]

/-- Witness for C5 at a concrete input: reconnecting id "a" with a
different configuration (`cfgW2`) through a world that refuses every
handshake still returns the cached connected status and the unchanged
registry. -/
theorem connect_idempotent_on_connected_witness :
    connect envRefuseW 9 cfgW2 stConnW =
      (⟨"a", .connected, none, some 7⟩, stConnW) :=
  connect_idempotent_on_connected envRefuseW 9 cfgW2 stConnW _ rfl rfl

/-! ### C6 -/

/-- C6 counterexample: after a successful connect for id "a" followed by
`disconnect`, the remaining record has status "disconnected" and no
capability snapshot but still holds the old non-null client handle — the
record update `{ ...managedClient, status, capabilities: null }` does not
null the handle, refuting the claimed "null client handle". -/
theorem disconnect_keeps_handle_counterexample :
    (mapGet (disconnect (connect envW 5 cfgW mapEmpty).2 "a").2 "a").map
        (fun mc => (mc.client.isSome, mc.status.status, mc.capabilities)) =
      some (true, .disconnected, none) := rfl

/-- C6 (amended): `disconnect` on an unknown id returns the synthesized
"disconnected" status and leaves the registry untouched (and attempts no
close); on an existing record it attempts an orderly close exactly when
the handle is non-null and the status is "connected" (close failures are
only logged, never propagated — `disconnect` is a total function), and
leaves a record with status "disconnected" and a null capability
snapshot while retaining the record's previous client handle; a second
`disconnect` returns the same result and registry (idempotent). -/
theorem disconnect_behaviour (st : Registry) (serverId : String) :
    (mapGet st serverId = none →
      disconnect st serverId =
        (⟨serverId, .disconnected, none, none⟩, st) ∧
      closeAttempted st serverId = false) ∧
    (∀ mc, mapGet st serverId = some mc →
      disconnect st serverId =
        (⟨serverId, .disconnected, none, none⟩,
          mapSet st serverId
            { mc with status := ⟨serverId, .disconnected, none, none⟩,
                      capabilities := none }) ∧
      closeAttempted st serverId =
        (mc.client.isSome && mc.status.status == .connected)) ∧
    disconnect (disconnect st serverId).2 serverId =
      disconnect st serverId := by
  refine ⟨?_, ?_, ?_⟩
  · intro h
    constructor
    · unfold disconnect
      rw [h]
    · unfold closeAttempted
      rw [h]
  · intro mc h
    constructor
    · unfold disconnect
      rw [h]
    · unfold closeAttempted
      rw [h]
  · cases hm : mapGet st serverId with
    | none =>
        have h2 : (disconnect st serverId).2 = st := by
          unfold disconnect
          rw [hm]
        rw [h2]
    | some mc =>
        have h2 : (disconnect st serverId).2 =
            mapSet st serverId
              { mc with status := ⟨serverId, .disconnected, none, none⟩,
                        capabilities := none } := by
          unfold disconnect
          rw [hm]
        have hget2 := mapGet_set_self st serverId
          { mc with status := ⟨serverId, .disconnected, none, none⟩,
                    capabilities := none }
        have hd2 : disconnect (mapSet st serverId
            { mc with status := ⟨serverId, .disconnected, none, none⟩,
                      capabilities := none }) serverId =
            (⟨serverId, .disconnected, none, none⟩,
              mapSet (mapSet st serverId
                { mc with status := ⟨serverId, .disconnected, none, none⟩,
                          capabilities := none }) serverId
                { mc with status := ⟨serverId, .disconnected, none, none⟩,
                          capabilities := none }) := by
          unfold disconnect
          rw [hget2]
        have hd1 : disconnect st serverId =
            (⟨serverId, .disconnected, none, none⟩,
              mapSet st serverId
                { mc with status := ⟨serverId, .disconnected, none, none⟩,
                          capabilities := none }) := by
          unfold disconnect
          rw [hm]
        rw [h2, hd2, mapSet_set, hd1]

/-- Witness for C6 (amended) at concrete inputs: disconnecting an unknown
id on the empty registry is a no-op with the synthesized status, and
disconnecting the connected record of `stConnW` attempts a close and
leaves the handle-retaining disconnected record. -/
theorem disconnect_behaviour_witness :
    disconnect mapEmpty "z" = (⟨"z", .disconnected, none, none⟩, mapEmpty) ∧
    closeAttempted stConnW "a" = true ∧
    disconnect (disconnect stConnW "a").2 "a" = disconnect stConnW "a" :=
  ⟨((disconnect_behaviour mapEmpty "z").1 rfl).1,
    by rw [((disconnect_behaviour stConnW "a").2.1 _ rfl).2]; rfl,
    (disconnect_behaviour stConnW "a").2.2⟩

/-! ### C7 -/

/-- C7: for a subprocess configuration with no stdio parameters (hence no
command string), an HTTP-streaming or SSE configuration with no HTTP
parameters (hence no URL), or an unrecognized transport kind,
`createTransport` fails before any network activity with the descriptive
message (naming the unrecognized value in the unknown-kind case), and
`connect` — for every environment and clock, hence without any handshake
— yields the "error" (spec "failed") status carrying that message. -/
theorem connect_config_failure (config : MCPServerConfig) (env : Env)
    (now : Nat) (st : Registry)
    (hguard : ∀ mc, mapGet st config.id = some mc →
      mc.status.status ≠ .connected) :
    (config.transportType = "stdio" → config.stdioConfig = none →
      createTransport config =
        .error "STDIO config is required for STDIO transport" ∧
      connect env now config st =
        connectFail config st
          "STDIO config is required for STDIO transport") ∧
    (config.transportType = "streamable-http" → config.httpConfig = none →
      createTransport config =
        .error "HTTP config is required for Streamable HTTP transport" ∧
      connect env now config st =
        connectFail config st
          "HTTP config is required for Streamable HTTP transport") ∧
    (config.transportType = "sse" → config.httpConfig = none →
      createTransport config =
        .error "HTTP config is required for SSE transport" ∧
      connect env now config st =
        connectFail config st "HTTP config is required for SSE transport") ∧
    (config.transportType ≠ "stdio" →
      config.transportType ≠ "streamable-http" →
      config.transportType ≠ "sse" →
      createTransport config =
        .error ("Unsupported transport type: " ++ config.transportType) ∧
      connect env now config st =
        connectFail config st
          ("Unsupported transport type: " ++ config.transportType)) := by
  refine ⟨?_, ?_, ?_, ?_⟩
  · intro hty hsc
    have hct : createTransport config =
        .error "STDIO config is required for STDIO transport" := by
      simp [createTransport, hty, hsc]
    exact ⟨hct,
      connect_of_transport_error env now config st _ hguard hct⟩
  · intro hty hhc
    have hty1 : config.transportType ≠ "stdio" := by
      rw [hty]; decide
    have hct : createTransport config =
        .error "HTTP config is required for Streamable HTTP transport" := by
      simp [createTransport, hty1, hty, hhc]
    exact ⟨hct,
      connect_of_transport_error env now config st _ hguard hct⟩
  · intro hty hhc
    have hty1 : config.transportType ≠ "stdio" := by
      rw [hty]; decide
    have hty2 : config.transportType ≠ "streamable-http" := by
      rw [hty]; decide
    have hct : createTransport config =
        .error "HTTP config is required for SSE transport" := by
      simp [createTransport, hty1, hty2, hty, hhc]
    exact ⟨hct,
      connect_of_transport_error env now config st _ hguard hct⟩
  · intro hty1 hty2 hty3
    have hct : createTransport config =
        .error ("Unsupported transport type: " ++ config.transportType) := by
      simp [createTransport, hty1, hty2, hty3]
    exact ⟨hct,
      connect_of_transport_error env now config st _ hguard hct⟩

/-- Witness for C7 at a concrete input: the unrecognized transport kind
"bogus" of `cfgBadW` is rejected with a message naming it, and `connect`
stores and returns the corresponding "error" status. -/
theorem connect_config_failure_witness :
    createTransport cfgBadW = .error "Unsupported transport type: bogus" ∧
    connect envW 0 cfgBadW mapEmpty =
      connectFail cfgBadW mapEmpty "Unsupported transport type: bogus" :=
  (connect_config_failure cfgBadW envW 0 mapEmpty
    (by intro mc h; cases h)).2.2.2
    (by decide) (by decide) (by decide)

/-! ### C8 -/

/-- C8: `disconnectAll` is a total function over the whole registry (it
never fails), and afterwards every id that was tracked before the call —
in particular every id that was successfully connected — reports the
synthesized-shape "disconnected" status through `getStatus`, appears
with that status in `getAllStatuses`, and has a null capability
snapshot. -/
theorem disconnectAll_disconnects_everything (st : Registry) (id : String)
    (mc : ManagedClient) (hget : mapGet st id = some mc) :
    getStatus (disconnectAll st) id = ⟨id, .disconnected, none, none⟩ ∧
    getCapabilities (disconnectAll st) id = none ∧
    (⟨id, .disconnected, none, none⟩ : MCPServerStatus) ∈
      getAllStatuses (disconnectAll st) := by
  have hmem : id ∈ st.map (fun p => p.1) :=
    List.mem_map.mpr ⟨(id, mc), mapGet_mem st id mc hget, rfl⟩
  have hobs : DiscObs (disconnectAll st) id := by
    unfold disconnectAll
    exact discObs_establish _ st id hmem (by rw [hget]; rfl)
  unfold DiscObs at hobs
  cases hm : mapGet (disconnectAll st) id with
  | none => rw [hm] at hobs; cases hobs
  | some mc' =>
      rw [hm] at hobs
      have hpair : (mc'.status, mc'.capabilities) =
          (⟨id, .disconnected, none, none⟩, none) := Option.some.inj hobs
      have hs := congrArg Prod.fst hpair
      have hc := congrArg Prod.snd hpair
      simp only at hs hc
      refine ⟨?_, ?_, ?_⟩
      · unfold getStatus
        rw [hm]
        exact hs
      · unfold getCapabilities
        rw [hm]
        exact hc
      · unfold getAllStatuses
        refine List.mem_map.mpr ⟨(id, mc'), ?_, hs⟩
        exact mapGet_mem _ id mc' hm

/-- Witness for C8 at a concrete input: after `disconnectAll` on the
one-connected-server registry `stConnW`, id "a" reports the
"disconnected" status and a null capability snapshot. -/
theorem disconnectAll_disconnects_everything_witness :
    getStatus (disconnectAll stConnW) "a" = ⟨"a", .disconnected, none, none⟩ ∧
    getCapabilities (disconnectAll stConnW) "a" = none :=
  ⟨(disconnectAll_disconnects_everything stConnW "a" _ rfl).1,
    (disconnectAll_disconnects_everything stConnW "a" _ rfl).2.1⟩

/-! ### The configuration storage: export and import (storage.ts) -/

/-- The element type of `MCPExportData.servers`:
`Omit<MCPServerConfig, "id" | "createdAt" | "updatedAt">`. -/
structure ExportedServer where
  name : String
  transportType : String
  stdioConfig : Option StdioConfig
  httpConfig : Option HttpConfig
  enabled : Bool
deriving DecidableEq, Repr

/-- The `MCPExportData` interface. -/
structure MCPExportData where
  version : Nat
  exportedAt : Nat
  servers : List ExportedServer
deriving DecidableEq, Repr

/-- The `STORAGE_VERSION` constant. -/
def STORAGE_VERSION : Nat := 1

/-- The `mcpStorage.exportServers` method over an explicit stored list
(`getServers()` reads it from browser storage); `now` is `Date.now()`.
The destructuring map keeps exactly the five non-identity fields. -/
def exportServers (servers : List MCPServerConfig) (now : Nat) :
    MCPExportData :=
  { version := STORAGE_VERSION
    exportedAt := now
    servers := servers.map (fun s =>
      ⟨s.name, s.transportType, s.stdioConfig, s.httpConfig, s.enabled⟩) }

/-- Modelled from the spec: the body of `generateId` lives in
`src/lib/utils`, which is not among the provided sources; the spec says
imported entries carry "a freshly generated identity ... to be
regenerated on import".  The consecutive calls of `generateId()` inside
`importServers`' map are modelled by an injected id supply `gen`, the
i-th call returning `gen i`; freshness is a hypothesis on `gen`.  This
function is that map: each exported server receives the next generated
id and `now` as both timestamps. -/
def assignFresh (gen : Nat → String) (now : Nat) :
    Nat → List ExportedServer → List MCPServerConfig
  | _, [] => []
  | i, s :: rest =>
      ⟨gen i, s.name, s.transportType, s.stdioConfig, s.httpConfig,
        s.enabled, now, now⟩ :: assignFresh gen now (i + 1) rest

/-- The `mcpStorage.importServers` method over an explicit stored list
`existing`; with `merge` the imported entries are appended after the
existing ones, otherwise they replace them. -/
def importServers (existing : List MCPServerConfig)
    (data : MCPExportData) (merge : Bool) (gen : Nat → String)
    (now : Nat) : List MCPServerConfig :=
  let importedServers := assignFresh gen now 0 data.servers
  if merge then existing ++ importedServers else importedServers

theorem assignFresh_length (gen : Nat → String) (now : Nat) :
    ∀ (i : Nat) (L : List ExportedServer),
      (assignFresh gen now i L).length = L.length
  | _, [] => rfl
  | i, _ :: rest => by
      simp [assignFresh, assignFresh_length gen now (i + 1) rest]

theorem assignFresh_get? (gen : Nat → String) (now : Nat) :
    ∀ (i j : Nat) (L : List ExportedServer),
      (assignFresh gen now i L).get? j =
        (L.get? j).map (fun s =>
          ⟨gen (i + j), s.name, s.transportType, s.stdioConfig,
            s.httpConfig, s.enabled, now, now⟩)
  | _, _, [] => by simp [assignFresh]
  | i, 0, s :: rest => by simp [assignFresh]
  | i, j + 1, s :: rest => by
      have h := assignFresh_get? gen now (i + 1) j rest
      simp only [assignFresh, List.get?_cons_succ, h]
      have harith : i + 1 + j = i + (j + 1) := by omega
      rw [harith]

theorem assignFresh_mem (gen : Nat → String) (now : Nat) :
    ∀ (i : Nat) (L : List ExportedServer) (c : MCPServerConfig),
      c ∈ assignFresh gen now i L →
      (∃ j, j < L.length ∧ c.id = gen (i + j)) ∧
        c.createdAt = now ∧ c.updatedAt = now
  | i, [], c, h => by cases h
  | i, s :: rest, c, h => by
      rcases List.mem_cons.mp h with h1 | h1
      · subst h1
        exact ⟨⟨0, by simp, by simp⟩, rfl, rfl⟩
      · obtain ⟨⟨j, hj, hid⟩, hca, hua⟩ :=
          assignFresh_mem gen now (i + 1) rest c h1
        refine ⟨⟨j + 1, by simpa using Nat.succ_lt_succ hj, ?_⟩, hca, hua⟩
        rw [hid]
        have harith : i + 1 + j = i + (j + 1) := by omega
        rw [harith]

/-! ### C9 -/

/-- C9: exporting M stored configurations and importing the result with
merge on top of a stored set of `existing` configurations yields exactly
`existing.length + pre.length` entries; the exported shape is the
projection dropping id and both timestamps; the pre-existing entries are
kept unchanged in front; the i-th imported entry carries the i-th freshly
generated id, `now1` as both timestamps, and the configuration fields of
the i-th exported entry; and under the spec's freshness assumptions on
the id supply and the clock, no imported entry reuses a pre-export id or
timestamp. -/
theorem import_after_export_merge (pre existing : List MCPServerConfig)
    (gen : Nat → String) (now0 now1 : Nat) :
    (importServers existing (exportServers pre now0) true gen now1).length =
      existing.length + pre.length ∧
    (exportServers pre now0).servers = pre.map (fun s =>
      ⟨s.name, s.transportType, s.stdioConfig, s.httpConfig, s.enabled⟩) ∧
    (importServers existing (exportServers pre now0) true gen
        now1).take existing.length = existing ∧
    (∀ i, i < pre.length → ∃ s, pre.get? i = some s ∧
      (importServers existing (exportServers pre now0) true gen
          now1).get? (existing.length + i) =
        some ⟨gen i, s.name, s.transportType, s.stdioConfig,
          s.httpConfig, s.enabled, now1, now1⟩) ∧
    ((∀ i, gen i ∉ pre.map (fun s => s.id)) →
      ∀ c ∈ (importServers existing (exportServers pre now0) true gen
          now1).drop existing.length,
        c.id ∉ pre.map (fun s => s.id)) ∧
    ((∀ s ∈ pre, now1 ≠ s.createdAt ∧ now1 ≠ s.updatedAt) →
      ∀ c ∈ (importServers existing (exportServers pre now0) true gen
          now1).drop existing.length,
        ∀ s ∈ pre, c.createdAt ≠ s.createdAt ∧ c.updatedAt ≠ s.updatedAt) := by
  have hlen : (assignFresh gen now1 0 (exportServers pre now0).servers).length =
      pre.length := by
    rw [assignFresh_length]
    simp [exportServers]
  have himp : importServers existing (exportServers pre now0) true gen now1 =
      existing ++ assignFresh gen now1 0 (exportServers pre now0).servers := by
    simp [importServers]
  refine ⟨?_, rfl, ?_, ?_, ?_, ?_⟩
  · rw [himp]
    simp [hlen]
  · rw [himp]
    exact List.take_left existing _
  · intro i hi
    refine ⟨pre.get ⟨i, hi⟩, List.get?_eq_get hi, ?_⟩
    rw [himp, List.get?_append_right (Nat.le_add_right existing.length i)]
    have h1 : existing.length + i - existing.length = i := by omega
    rw [h1, assignFresh_get? gen now1 0 i]
    have h2 : (exportServers pre now0).servers.get? i =
        some ⟨(pre.get ⟨i, hi⟩).name, (pre.get ⟨i, hi⟩).transportType,
          (pre.get ⟨i, hi⟩).stdioConfig, (pre.get ⟨i, hi⟩).httpConfig,
          (pre.get ⟨i, hi⟩).enabled⟩ := by
      show (pre.map (fun s => (⟨s.name, s.transportType, s.stdioConfig,
        s.httpConfig, s.enabled⟩ : ExportedServer))).get? i = _
      rw [List.get?_map, List.get?_eq_get hi]
      rfl
    rw [h2]
    simp
  · intro hfresh c hc
    rw [himp, List.drop_left] at hc
    obtain ⟨⟨j, hj, hid⟩, hca, hua⟩ := assignFresh_mem gen now1 0 _ c hc
    rw [hid, Nat.zero_add]
    exact hfresh j
  · intro hts c hc s hs
    rw [himp, List.drop_left] at hc
    obtain ⟨_, hca, hua⟩ := assignFresh_mem gen now1 0 _ c hc
    refine ⟨?_, ?_⟩
    · rw [hca]
      exact (hts s hs).1
    · rw [hua]
      exact (hts s hs).2

/-- Witness for C9 at a concrete input: exporting the one-element stored
set `[cfgW2]` and importing it with merge on top of `[cfgBadW]` yields
two entries whose imported tail carries the generated id "fresh" (absent
from the pre-export ids) and the import-time timestamps. -/
theorem import_after_export_merge_witness :
    (importServers [cfgBadW] (exportServers [cfgW2] 10) true
        (fun _ => "fresh") 11).length = 2 ∧
    (importServers [cfgBadW] (exportServers [cfgW2] 10) true
        (fun _ => "fresh") 11).get? 1 =
      some ⟨"fresh", "renamed", "sse", none, some ⟨"http://x", none⟩,
        false, 11, 11⟩ ∧
    (∀ c ∈ (importServers [cfgBadW] (exportServers [cfgW2] 10) true
        (fun _ => "fresh") 11).drop 1,
      c.id ∉ [cfgW2].map (fun s => s.id)) := by
  have h := import_after_export_merge [cfgW2] [cfgBadW]
    (fun _ => "fresh") 10 11
  refine ⟨h.1, ?_, h.2.2.2.2.1 (fun _ => by decide)⟩
  obtain ⟨s, hs1, hs2⟩ := h.2.2.2.1 0 (by decide)
  have hseq : s = cfgW2 := by
    have : ([cfgW2].get? 0) = some cfgW2 := rfl
    rw [this] at hs1
    exact (Option.some.inj hs1).symm
  rw [hseq] at hs2
  exact hs2

end MCP

/-!
The extended-message codec of the chat storage layer.  Messages that
carry tool calls are stored as `"[[EXTENDED_MSG]]" + JSON.stringify({
text, toolCalls })` and recovered by `JSON.parse` after stripping the
marker.  `JSON.stringify` / `JSON.parse` are modelled on a value universe
`Json` whose numbers are integers (the opaque `unknown[]` tool-call
payloads are JSON values; float formatting is not modelled).  The parser
mirrors `JSON.parse` on serializer outputs; surrounding whitespace and
fractional/exponent number forms, which no stringify output contains,
are rejected rather than accepted.
-/

namespace Chat

/-- A JavaScript JSON value (numbers restricted to integers). -/
inductive Json where
| null
| bool (b : Bool)
| num (n : Int)
| str (s : String)
| arr (items : List Json)
| obj (fields : List (String × Json))

/-- Lowercase hexadecimal digit character for `n < 16`, as produced by
JavaScript's `\u00xx` escapes. -/
def hexDig (n : Nat) : Char :=
  if n < 10 then Char.ofNat (48 + n) else Char.ofNat (87 + n)

/-- One character of a string body as `JSON.stringify` emits it
(ECMA-262 QuoteJSONString): quote and backslash escaped, the five
control-character shorthands, `\u00xx` for other control characters,
everything else literal. -/
def escChar (c : Char) : List Char :=
  if c = '"' then ['\\', '"']
  else if c = '\\' then ['\\', '\\']
  else if c = Char.ofNat 8 then ['\\', 'b']
  else if c = Char.ofNat 9 then ['\\', 't']
  else if c = Char.ofNat 10 then ['\\', 'n']
  else if c = Char.ofNat 12 then ['\\', 'f']
  else if c = Char.ofNat 13 then ['\\', 'r']
  else if c.toNat < 32 then
    ['\\', 'u', '0', '0', hexDig (c.toNat / 16), hexDig (c.toNat % 16)]
  else [c]

/-- A string rendered with surrounding quotes and escaped body. -/
def quoteChars (s : String) : List Char :=
  '"' :: (s.data.flatMap escChar ++ ['"'])

/-- Decimal digit characters of a natural number, most significant
first. -/
def natDigs (n : Nat) : List Char :=
  if _ : n < 10 then [Char.ofNat (48 + n)]
  else natDigs (n / 10) ++ [Char.ofNat (48 + n % 10)]
termination_by n
decreasing_by exact Nat.div_lt_self (by omega) (by omega)

/-- Decimal rendering of an integer: optional minus sign, then digits —
what `JSON.stringify` prints for an integral number. -/
def intChars (n : Int) : List Char :=
  if n < 0 then '-' :: natDigs n.natAbs else natDigs n.natAbs

mutual

/-- The characters `JSON.stringify` emits for a value (no whitespace). -/
def sjVal : Json → List Char
  | .null => "null".data
  | .bool true => "true".data
  | .bool false => "false".data
  | .num n => intChars n
  | .str s => quoteChars s
  | .arr items => '[' :: (sjItems items ++ [']'])
  | .obj fields => '{' :: (sjFields fields ++ ['}'])

/-- Array elements, comma-separated. -/
def sjItems : List Json → List Char
  | [] => []
  | v :: rest => sjVal v ++ sjItemsTail rest

/-- The remaining array elements, each preceded by a comma. -/
def sjItemsTail : List Json → List Char
  | [] => []
  | v :: rest => ',' :: (sjVal v ++ sjItemsTail rest)

/-- Object members, comma-separated, each `"key":value`. -/
def sjFields : List (String × Json) → List Char
  | [] => []
  | (k, v) :: rest => quoteChars k ++ ':' :: (sjVal v ++ sjFieldsTail rest)

/-- The remaining object members, each preceded by a comma. -/
def sjFieldsTail : List (String × Json) → List Char
  | [] => []
  | (k, v) :: rest =>
      ',' :: (quoteChars k ++ ':' :: (sjVal v ++ sjFieldsTail rest))

end

/-- The decimal value of a digit character, if it is one. -/
def digVal? (c : Char) : Option Nat :=
  if 48 ≤ c.toNat ∧ c.toNat ≤ 57 then some (c.toNat - 48) else none

/-- The value of a hexadecimal digit character, if it is one. -/
def hexVal? (c : Char) : Option Nat :=
  if 48 ≤ c.toNat ∧ c.toNat ≤ 57 then some (c.toNat - 48)
  else if 97 ≤ c.toNat ∧ c.toNat ≤ 102 then some (c.toNat - 87)
  else if 65 ≤ c.toNat ∧ c.toNat ≤ 70 then some (c.toNat - 55)
  else none

/-- The character named by a single-character JSON escape. -/
def unesc? (e : Char) : Option Char :=
  if e = '"' then some '"'
  else if e = '\\' then some '\\'
  else if e = '/' then some '/'
  else if e = 'b' then some (Char.ofNat 8)
  else if e = 't' then some (Char.ofNat 9)
  else if e = 'n' then some (Char.ofNat 10)
  else if e = 'f' then some (Char.ofNat 12)
  else if e = 'r' then some (Char.ofNat 13)
  else none

/-- String-body parser: consumes characters after the opening quote up
to and including the closing quote, undoing escapes; `acc` holds the
already-read characters in reverse. -/
def pStr (acc : List Char) : List Char → Option (String × List Char)
  | [] => none
  | c :: rest =>
      if c = '"' then some (⟨acc.reverse⟩, rest)
      else if c = '\\' then
        match rest with
        | [] => none
        | e :: rest2 =>
            if e = 'u' then
              match rest2 with
              | a :: b :: c2 :: d :: rest3 =>
                  match hexVal? a, hexVal? b, hexVal? c2, hexVal? d with
                  | some va, some vb, some vc, some vd =>
                      pStr (Char.ofNat
                        (((va * 16 + vb) * 16 + vc) * 16 + vd) :: acc) rest3
                  | _, _, _, _ => none
              | _ => none
            else
              match unesc? e with
              | some ch => pStr (ch :: acc) rest2
              | none => none
      else pStr (c :: acc) rest

/-- Longest digit prefix, as digit values, plus the remaining input. -/
def takeDigs : List Char → List Nat × List Char
  | [] => ([], [])
  | c :: rest =>
      match digVal? c with
      | some d => (d :: (takeDigs rest).1, (takeDigs rest).2)
      | none => ([], c :: rest)

/-- The natural number with the given decimal digit values. -/
def digsToNat (ds : List Nat) : Nat := ds.foldl (fun a d => a * 10 + d) 0

/-- Integer parser: optional minus sign then a nonempty digit run. -/
def pNum : List Char → Option (Int × List Char)
  | [] => none
  | c :: rest =>
      if c = '-' then
        if (takeDigs rest).1.isEmpty then none
        else some (-(digsToNat (takeDigs rest).1 : Int), (takeDigs rest).2)
      else
        if (takeDigs (c :: rest)).1.isEmpty then none
        else some ((digsToNat (takeDigs (c :: rest)).1 : Int),
          (takeDigs (c :: rest)).2)

mutual

/-- Value parser, recursing on `fuel` (any fuel beyond the input length
is enough); dispatches on the first character. -/
def pVal : Nat → List Char → Option (Json × List Char)
  | 0, _ => none
  | fuel + 1, cs =>
      match cs with
      | [] => none
      | c :: r =>
          if c = 'n' then
            match r with
            | 'u' :: 'l' :: 'l' :: r2 => some (.null, r2)
            | _ => none
          else if c = 't' then
            match r with
            | 'r' :: 'u' :: 'e' :: r2 => some (.bool true, r2)
            | _ => none
          else if c = 'f' then
            match r with
            | 'a' :: 'l' :: 's' :: 'e' :: r2 => some (.bool false, r2)
            | _ => none
          else if c = '"' then
            match pStr [] r with
            | some (s, r2) => some (.str s, r2)
            | none => none
          else if c = '[' then
            match r with
            | [] => none
            | c2 :: r2 =>
                if c2 = ']' then some (.arr [], r2)
                else
                  match pItems fuel (c2 :: r2) with
                  | some (vs, r3) => some (.arr vs, r3)
                  | none => none
          else if c = '{' then
            match r with
            | [] => none
            | c2 :: r2 =>
                if c2 = '}' then some (.obj [], r2)
                else
                  match pFields fuel (c2 :: r2) with
                  | some (fs, r3) => some (.obj fs, r3)
                  | none => none
          else
            match pNum (c :: r) with
            | some (n, r2) => some (.num n, r2)
            | none => none

/-- One-or-more comma-separated elements followed by `]`. -/
def pItems : Nat → List Char → Option (List Json × List Char)
  | 0, _ => none
  | fuel + 1, cs =>
      match pVal fuel cs with
      | none => none
      | some (v, r) =>
          match r with
          | [] => none
          | c :: r2 =>
              if c = ',' then
                match pItems fuel r2 with
                | some (vs, r3) => some (v :: vs, r3)
                | none => none
              else if c = ']' then some ([v], r2)
              else none

/-- One-or-more comma-separated `"key":value` members followed by `}`. -/
def pFields : Nat → List Char → Option (List (String × Json) × List Char)
  | 0, _ => none
  | fuel + 1, cs =>
      match cs with
      | [] => none
      | c :: r =>
          if c = '"' then
            match pStr [] r with
            | none => none
            | some (k, r1) =>
                match r1 with
                | [] => none
                | c1 :: r2 =>
                    if c1 = ':' then
                      match pVal fuel r2 with
                      | none => none
                      | some (v, r3) =>
                          match r3 with
                          | [] => none
                          | c3 :: r4 =>
                              if c3 = ',' then
                                match pFields fuel r4 with
                                | some (fs, r5) => some ((k, v) :: fs, r5)
                                | none => none
                              else if c3 = '}' then some ([(k, v)], r4)
                              else none
                    else none
          else none

end

/-- The model of `JSON.stringify` on the `Json` universe. -/
def stringifyJson (v : Json) : String := ⟨sjVal v⟩

/-- The model of `JSON.parse`: a value must consume the whole input. -/
def parseJson (s : String) : Option Json :=
  match pVal (s.data.length + 1) s.data with
  | some (v, []) => some v
  | _ => none

/-! ### Digit and character facts -/

/-- Input that cannot extend a digit run: empty, or headed by a
non-digit. -/
def notDigitStart : List Char → Bool
  | [] => true
  | c :: _ => (digVal? c).isNone

theorem digVal?_spec (c : Char) (d : Nat) (hd : digVal? c = some d) :
    48 ≤ c.toNat ∧ c.toNat ≤ 57 ∧ d = c.toNat - 48 := by
  unfold digVal? at hd
  by_cases h : 48 ≤ c.toNat ∧ c.toNat ≤ 57
  · rw [if_pos h] at hd
    cases hd
    exact ⟨h.1, h.2, rfl⟩
  · rw [if_neg h] at hd
    cases hd

theorem digitChar_val (d : Nat) (h : d < 10) :
    digVal? (Char.ofNat (48 + d)) = some d := by
  interval_cases d <;> decide

theorem digitChar_props (d : Nat) (h : d < 10) :
    Char.ofNat (48 + d) ≠ '-' ∧ Char.ofNat (48 + d) ≠ 'n' ∧
    Char.ofNat (48 + d) ≠ 't' ∧ Char.ofNat (48 + d) ≠ 'f' ∧
    Char.ofNat (48 + d) ≠ '"' ∧ Char.ofNat (48 + d) ≠ '[' ∧
    Char.ofNat (48 + d) ≠ '{' ∧ Char.ofNat (48 + d) ≠ ']' ∧
    Char.ofNat (48 + d) ≠ '}' := by
  interval_cases d <;> exact (by decide)

theorem hexVal?_hexDig (d : Nat) (h : d < 16) :
    hexVal? (hexDig d) = some d := by
  interval_cases d <;> decide

/-! ### Facts about the decimal renderer -/

/-- The digit values of `natDigs n`, most significant first. -/
def natDigVals (n : Nat) : List Nat :=
  if _ : n < 10 then [n]
  else natDigVals (n / 10) ++ [n % 10]
termination_by n
decreasing_by exact Nat.div_lt_self (by omega) (by omega)

theorem natDigs_eq (n : Nat) :
    natDigs n = (natDigVals n).map (fun d => Char.ofNat (48 + d)) := by
  induction n using Nat.strongRecOn with
  | ind n ih =>
      unfold natDigs natDigVals
      by_cases h : n < 10
      · simp [h]
      · rw [dif_neg h, dif_neg h, List.map_append,
          ih (n / 10) (Nat.div_lt_self (by omega) (by omega))]
        rfl

theorem natDigVals_bounded (n : Nat) :
    ∀ d ∈ natDigVals n, d < 10 := by
  induction n using Nat.strongRecOn with
  | ind n ih =>
      unfold natDigVals
      by_cases h : n < 10
      · simp [h]
      · rw [dif_neg h]
        intro d hd
        rcases List.mem_append.mp hd with hd | hd
        · exact ih (n / 10) (Nat.div_lt_self (by omega) (by omega)) d hd
        · rw [List.mem_singleton.mp hd]
          exact Nat.mod_lt _ (by omega)

theorem natDigVals_ne_nil (n : Nat) : natDigVals n ≠ [] := by
  unfold natDigVals
  by_cases h : n < 10
  · simp [h]
  · rw [dif_neg h]
    simp

theorem digsToNat_natDigVals (n : Nat) : digsToNat (natDigVals n) = n := by
  induction n using Nat.strongRecOn with
  | ind n ih =>
      unfold natDigVals
      by_cases h : n < 10
      · simp [h, digsToNat]
      · rw [dif_neg h]
        unfold digsToNat
        rw [List.foldl_append]
        have := ih (n / 10) (Nat.div_lt_self (by omega) (by omega))
        unfold digsToNat at this
        rw [this]
        simp
        omega

/-! ### Facts about the digit-run and number parsers -/

theorem takeDigs_stop (rest : List Char)
    (h : notDigitStart rest = true) : takeDigs rest = ([], rest) := by
  cases rest with
  | nil => rfl
  | cons c t =>
      unfold notDigitStart at h
      unfold takeDigs
      rw [Option.isNone_iff_eq_none.mp h]

theorem takeDigs_run (vs : List Nat) (hvs : ∀ d ∈ vs, d < 10)
    (rest : List Char) (hstop : takeDigs rest = ([], rest)) :
    takeDigs ((vs.map (fun d => Char.ofNat (48 + d))) ++ rest) =
      (vs, rest) := by
  induction vs with
  | nil => simpa using hstop
  | cons d t ih =>
      have hd : digVal? (Char.ofNat (48 + d)) = some d :=
        digitChar_val d (hvs d (List.mem_cons_self d t))
      have ht := ih (fun x hx => hvs x (List.mem_cons_of_mem d hx))
      simp only [List.map_cons, List.cons_append]
      unfold takeDigs
      rw [hd, ht]

theorem pNum_intChars (n : Int) (rest : List Char)
    (hstop : takeDigs rest = ([], rest)) :
    pNum (intChars n ++ rest) = some (n, rest) := by
  have hrun := takeDigs_run (natDigVals n.natAbs)
    (natDigVals_bounded n.natAbs) rest hstop
  rw [← natDigs_eq] at hrun
  have hne : (natDigVals n.natAbs).isEmpty = false := by
    cases h : natDigVals n.natAbs with
    | nil => exact absurd h (natDigVals_ne_nil _)
    | cons a t => rfl
  by_cases hn : n < 0
  · have harg : intChars n ++ rest = '-' :: (natDigs n.natAbs ++ rest) := by
      simp [intChars, hn]
    have hval : -((digsToNat (natDigVals n.natAbs) : Nat) : Int) = n := by
      rw [digsToNat_natDigVals]
      omega
    rw [harg]
    simp only [pNum, if_pos rfl, hrun]
    simp [hne, hval]
  · obtain ⟨c0, t0, hcons⟩ : ∃ c0 t0, natDigs n.natAbs = c0 :: t0 := by
      cases h : natDigs n.natAbs with
      | nil =>
          rw [natDigs_eq] at h
          exact absurd (List.map_eq_nil.mp h) (natDigVals_ne_nil _)
      | cons a t => exact ⟨a, t, rfl⟩
    have hc0mem : c0 ∈ (natDigVals n.natAbs).map
        (fun d => Char.ofNat (48 + d)) := by
      rw [← natDigs_eq, hcons]
      exact List.mem_cons_self _ _
    obtain ⟨d0, hd0mem, hd0⟩ := List.mem_map.mp hc0mem
    have hd0lt : d0 < 10 := natDigVals_bounded n.natAbs d0 hd0mem
    have hne0 : c0 ≠ '-' := hd0 ▸ (digitChar_props d0 hd0lt).1
    have harg : intChars n ++ rest = c0 :: (t0 ++ rest) := by
      simp [intChars, hn, hcons]
    have harg2 : c0 :: (t0 ++ rest) = natDigs n.natAbs ++ rest := by
      rw [hcons]
      rfl
    have hval : ((digsToNat (natDigVals n.natAbs) : Nat) : Int) = n := by
      rw [digsToNat_natDigVals]
      omega
    rw [harg]
    simp only [pNum, if_neg hne0, harg2, hrun]
    simp [hne, hval]

/-! ### The string-body parser inverts the escaper -/

theorem pStr_esc (c : Char) (acc t : List Char) :
    pStr acc (escChar c ++ t) = pStr (c :: acc) t := by
  by_cases h1 : c = '"'
  · subst h1
    show pStr acc ('\\' :: '"' :: t) = _
    rw [pStr.eq_def]
    simp [unesc?]
  by_cases h2 : c = '\\'
  · subst h2
    show pStr acc ('\\' :: '\\' :: t) = _
    rw [pStr.eq_def]
    simp [unesc?]
  by_cases h3 : c = Char.ofNat 8
  · subst h3
    show pStr acc ('\\' :: 'b' :: t) = _
    rw [pStr.eq_def]
    simp [unesc?]
  by_cases h4 : c = Char.ofNat 9
  · subst h4
    show pStr acc ('\\' :: 't' :: t) = _
    rw [pStr.eq_def]
    simp [unesc?]
  by_cases h5 : c = Char.ofNat 10
  · subst h5
    show pStr acc ('\\' :: 'n' :: t) = _
    rw [pStr.eq_def]
    simp [unesc?]
  by_cases h6 : c = Char.ofNat 12
  · subst h6
    show pStr acc ('\\' :: 'f' :: t) = _
    rw [pStr.eq_def]
    simp [unesc?]
  by_cases h7 : c = Char.ofNat 13
  · subst h7
    show pStr acc ('\\' :: 'r' :: t) = _
    rw [pStr.eq_def]
    simp [unesc?]
  by_cases h8 : c.toNat < 32
  · have hesc : escChar c = ['\\', 'u', '0', '0',
        hexDig (c.toNat / 16), hexDig (c.toNat % 16)] := by
      unfold escChar
      rw [if_neg h1, if_neg h2, if_neg h3, if_neg h4, if_neg h5,
        if_neg h6, if_neg h7, if_pos h8]
    have e1 : hexVal? (hexDig (c.toNat / 16)) = some (c.toNat / 16) :=
      hexVal?_hexDig _ (by omega)
    have e2 : hexVal? (hexDig (c.toNat % 16)) = some (c.toNat % 16) :=
      hexVal?_hexDig _ (by omega)
    have hv : (((0 * 16 + 0) * 16 + c.toNat / 16) * 16 + c.toNat % 16) =
        c.toNat := by
      omega
    rw [hesc]
    show pStr acc ('\\' :: 'u' :: '0' :: '0' ::
      hexDig (c.toNat / 16) :: hexDig (c.toNat % 16) :: t) = _
    rw [pStr.eq_def]
    simp only [e1, e2, show hexVal? '0' = some 0 from rfl]
    simp
    rw [show c.toNat / 16 * 16 + c.toNat % 16 = c.toNat from by omega,
      Char.ofNat_toNat]
  · have hesc : escChar c = [c] := by
      unfold escChar
      rw [if_neg h1, if_neg h2, if_neg h3, if_neg h4, if_neg h5,
        if_neg h6, if_neg h7, if_neg h8]
    rw [hesc]
    show pStr acc (c :: t) = _
    rw [pStr.eq_def]
    simp [h1, h2]

theorem pStr_flatMap (cs : List Char) : ∀ (acc rest : List Char),
    pStr acc (cs.flatMap escChar ++ '"' :: rest) =
      some (⟨acc.reverse ++ cs⟩, rest) := by
  induction cs with
  | nil =>
      intro acc rest
      rw [List.flatMap_nil, List.nil_append, pStr.eq_def]
      simp
  | cons c cs ih =>
      intro acc rest
      rw [List.flatMap_cons, List.append_assoc, pStr_esc, ih]
      simp

/-- The string codec round-trip: the body parser undoes the quoting. -/
theorem pStr_quoted (s : String) (rest : List Char) :
    pStr [] (s.data.flatMap escChar ++ '"' :: rest) = some (s, rest) := by
  rw [pStr_flatMap]
  rfl

/-! ### Heads and lengths of rendered output -/

theorem natDigs_head (m : Nat) :
    ∃ d t, d < 10 ∧ natDigs m = Char.ofNat (48 + d) :: t := by
  cases hv : natDigVals m with
  | nil => exact absurd hv (natDigVals_ne_nil m)
  | cons a s =>
      refine ⟨a, s.map (fun d => Char.ofNat (48 + d)), ?_, ?_⟩
      · refine natDigVals_bounded m a ?_
        rw [hv]
        exact List.mem_cons_self a s
      · rw [natDigs_eq, hv]
        rfl

theorem sjVal_head (v : Json) :
    ∃ c t, sjVal v = c :: t ∧ c ≠ ']' ∧ c ≠ '}' := by
  cases v with
  | null => exact ⟨'n', _, rfl, by decide, by decide⟩
  | bool b =>
      cases b with
      | true => exact ⟨'t', _, rfl, by decide, by decide⟩
      | false => exact ⟨'f', _, rfl, by decide, by decide⟩
  | num n =>
      by_cases hn : n < 0
      · refine ⟨'-', natDigs n.natAbs, ?_, by decide, by decide⟩
        simp [sjVal, intChars, hn]
      · obtain ⟨d, t, hd, ht⟩ := natDigs_head n.natAbs
        refine ⟨Char.ofNat (48 + d), t, ?_,
          (digitChar_props d hd).2.2.2.2.2.2.2.1,
          (digitChar_props d hd).2.2.2.2.2.2.2.2⟩
        simp [sjVal, intChars, hn, ht]
  | str s => exact ⟨'"', _, rfl, by decide, by decide⟩
  | arr items => exact ⟨'[', _, rfl, by decide, by decide⟩
  | obj fields => exact ⟨'{', _, rfl, by decide, by decide⟩

theorem sjVal_length_pos (v : Json) : 0 < (sjVal v).length := by
  obtain ⟨c, t, hct, _, _⟩ := sjVal_head v
  rw [hct]
  simp

theorem takeDigs_comma (X : List Char) : takeDigs (',' :: X) = ([], ',' :: X) := by
  rw [takeDigs.eq_def]
  simp [digVal?]

theorem takeDigs_rbracket (X : List Char) :
    takeDigs (']' :: X) = ([], ']' :: X) := by
  rw [takeDigs.eq_def]
  simp [digVal?]

theorem takeDigs_rbrace (X : List Char) :
    takeDigs ('}' :: X) = ([], '}' :: X) := by
  rw [takeDigs.eq_def]
  simp [digVal?]

theorem sjItemsTail_cons (w : Json) (ws : List Json) :
    sjItemsTail (w :: ws) = ',' :: sjItems (w :: ws) := by
  simp [sjItemsTail, sjItems]

theorem sjFieldsTail_cons (kv : String × Json) (fs : List (String × Json)) :
    sjFieldsTail (kv :: fs) = ',' :: sjFields (kv :: fs) := by
  obtain ⟨k, v⟩ := kv
  simp [sjFieldsTail, sjFields]

/-! ### The JSON codec round-trip -/

mutual

theorem rt_val : ∀ (v : Json) (fuel : Nat) (rest : List Char),
    (sjVal v).length < fuel → takeDigs rest = ([], rest) →
    pVal fuel (sjVal v ++ rest) = some (v, rest)
  | .null, fuel, rest, hf, _ => by
      cases fuel with
      | zero => exact absurd hf (Nat.not_lt_zero _)
      | succ f =>
          have harg : sjVal .null ++ rest =
              'n' :: 'u' :: 'l' :: 'l' :: rest := by
            simp [sjVal]
          rw [harg]
          simp only [pVal]
          simp
  | .bool true, fuel, rest, hf, _ => by
      cases fuel with
      | zero => exact absurd hf (Nat.not_lt_zero _)
      | succ f =>
          have harg : sjVal (.bool true) ++ rest =
              't' :: 'r' :: 'u' :: 'e' :: rest := by
            simp [sjVal]
          rw [harg]
          simp only [pVal]
          simp
  | .bool false, fuel, rest, hf, _ => by
      cases fuel with
      | zero => exact absurd hf (Nat.not_lt_zero _)
      | succ f =>
          have harg : sjVal (.bool false) ++ rest =
              'f' :: 'a' :: 'l' :: 's' :: 'e' :: rest := by
            simp [sjVal]
          rw [harg]
          simp only [pVal]
          simp
  | .num n, fuel, rest, hf, hr => by
      cases fuel with
      | zero => exact absurd hf (Nat.not_lt_zero _)
      | succ f =>
          by_cases hn : n < 0
          · have harg : sjVal (.num n) ++ rest =
                '-' :: (natDigs n.natAbs ++ rest) := by
              simp [sjVal, intChars, hn]
            have hp : pNum ('-' :: (natDigs n.natAbs ++ rest)) =
                some (n, rest) := by
              have hin : '-' :: (natDigs n.natAbs ++ rest) =
                  intChars n ++ rest := by
                simp [intChars, hn]
              rw [hin]
              exact pNum_intChars n rest hr
            rw [harg]
            simp only [pVal]
            simp [hp]
          · obtain ⟨d, t, hd, ht⟩ := natDigs_head n.natAbs
            have hprops := digitChar_props d hd
            have harg : sjVal (.num n) ++ rest =
                Char.ofNat (48 + d) :: (t ++ rest) := by
              simp [sjVal, intChars, hn, ht]
            have hp : pNum (Char.ofNat (48 + d) :: (t ++ rest)) =
                some (n, rest) := by
              have hin : Char.ofNat (48 + d) :: (t ++ rest) =
                  intChars n ++ rest := by
                simp [intChars, hn, ht]
              rw [hin]
              exact pNum_intChars n rest hr
            rw [harg]
            simp only [pVal]
            simp [hprops.2.1, hprops.2.2.1, hprops.2.2.2.1,
              hprops.2.2.2.2.1, hprops.2.2.2.2.2.1,
              hprops.2.2.2.2.2.2.1, hp]
  | .str s, fuel, rest, hf, _ => by
      cases fuel with
      | zero => exact absurd hf (Nat.not_lt_zero _)
      | succ f =>
          have harg : sjVal (.str s) ++ rest =
              '"' :: (s.data.flatMap escChar ++ '"' :: rest) := by
            simp [sjVal, quoteChars]
          rw [harg]
          simp only [pVal]
          simp [pStr_quoted]
  | .arr [], fuel, rest, hf, _ => by
      cases fuel with
      | zero => exact absurd hf (Nat.not_lt_zero _)
      | succ f =>
          have harg : sjVal (.arr []) ++ rest = '[' :: ']' :: rest := by
            simp [sjVal, sjItems]
          rw [harg]
          simp only [pVal]
          simp
  | .arr (v :: vs), fuel, rest, hf, hr => by
      cases fuel with
      | zero => exact absurd hf (Nat.not_lt_zero _)
      | succ f =>
          obtain ⟨c, t, hct, hcr, _⟩ := sjVal_head v
          have harg : sjVal (.arr (v :: vs)) ++ rest =
              '[' :: (sjItems (v :: vs) ++ ']' :: rest) := by
            simp [sjVal]
          have hitems : sjItems (v :: vs) ++ ']' :: rest =
              c :: (t ++ (sjItemsTail vs ++ ']' :: rest)) := by
            simp [sjItems, hct]
          have hflen : (sjItems (v :: vs)).length + 1 < f := by
            have h2 : (sjVal (.arr (v :: vs))).length =
                (sjItems (v :: vs)).length + 2 := by
              simp [sjVal]
            rw [h2] at hf
            omega
          have hrec := rt_items v vs f rest hflen hr
          have hrec2 : pItems f (c :: (t ++ (sjItemsTail vs ++ ']' :: rest))) =
              some (v :: vs, rest) := by
            rw [← hitems]
            exact hrec
          rw [harg]
          simp only [pVal]
          simp [hitems, hcr, hrec2]
  | .obj [], fuel, rest, hf, _ => by
      cases fuel with
      | zero => exact absurd hf (Nat.not_lt_zero _)
      | succ f =>
          have harg : sjVal (.obj []) ++ rest = '{' :: '}' :: rest := by
            simp [sjVal, sjFields]
          rw [harg]
          simp only [pVal]
          simp
  | .obj ((k, v) :: fs), fuel, rest, hf, hr => by
      cases fuel with
      | zero => exact absurd hf (Nat.not_lt_zero _)
      | succ f =>
          have harg : sjVal (.obj ((k, v) :: fs)) ++ rest =
              '{' :: (sjFields ((k, v) :: fs) ++ '}' :: rest) := by
            simp [sjVal]
          have hfields : sjFields ((k, v) :: fs) ++ '}' :: rest =
              '"' :: (k.data.flatMap escChar ++
                ('"' :: (':' :: (sjVal v ++ (sjFieldsTail fs ++
                  '}' :: rest))))) := by
            simp [sjFields, quoteChars]
          have hflen : (sjFields ((k, v) :: fs)).length + 1 < f := by
            have h2 : (sjVal (.obj ((k, v) :: fs))).length =
                (sjFields ((k, v) :: fs)).length + 2 := by
              simp [sjVal]
            rw [h2] at hf
            omega
          have hrec := rt_fields (k, v) fs f rest hflen hr
          have hrec2 : pFields f ('"' :: (k.data.flatMap escChar ++
              ('"' :: (':' :: (sjVal v ++ (sjFieldsTail fs ++
                '}' :: rest)))))) = some ((k, v) :: fs, rest) := by
            rw [← hfields]
            exact hrec
          rw [harg]
          simp only [pVal]
          simp [hfields, hrec2]

theorem rt_items : ∀ (v : Json) (vs : List Json) (fuel : Nat)
    (rest : List Char),
    (sjItems (v :: vs)).length + 1 < fuel → takeDigs rest = ([], rest) →
    pItems fuel (sjItems (v :: vs) ++ ']' :: rest) = some (v :: vs, rest)
  | v, [], fuel, rest, hf, hr => by
      cases fuel with
      | zero => exact absurd hf (Nat.not_lt_zero _)
      | succ f =>
          have hlenv : (sjVal v).length < f := by
            have h2 : (sjItems (v :: [])).length = (sjVal v).length := by
              simp [sjItems, sjItemsTail]
            rw [h2] at hf
            omega
          have harg : sjItems (v :: []) ++ ']' :: rest =
              sjVal v ++ ']' :: rest := by
            simp [sjItems, sjItemsTail]
          have hv := rt_val v f (']' :: rest) hlenv (takeDigs_rbracket rest)
          rw [harg]
          simp only [pItems]
          simp [hv]
  | v, w :: ws, fuel, rest, hf, hr => by
      cases fuel with
      | zero => exact absurd hf (Nat.not_lt_zero _)
      | succ f =>
          have hp := sjVal_length_pos v
          have h2 : (sjItems (v :: w :: ws)).length =
              (sjVal v).length + 1 + (sjItems (w :: ws)).length := by
            simp [sjItems, sjItemsTail_cons]
            omega
          have hlenv : (sjVal v).length < f := by
            rw [h2] at hf
            omega
          have hlenw : (sjItems (w :: ws)).length + 1 < f := by
            rw [h2] at hf
            omega
          have harg : sjItems (v :: w :: ws) ++ ']' :: rest =
              sjVal v ++ (',' :: (sjItems (w :: ws) ++ ']' :: rest)) := by
            simp [sjItems, sjItemsTail_cons]
          have hv := rt_val v f (',' :: (sjItems (w :: ws) ++ ']' :: rest))
            hlenv (takeDigs_comma _)
          have hrec := rt_items w ws f rest hlenw hr
          rw [harg]
          simp only [pItems]
          simp [hv, hrec]

theorem rt_fields : ∀ (kv : String × Json) (fs : List (String × Json))
    (fuel : Nat) (rest : List Char),
    (sjFields (kv :: fs)).length + 1 < fuel → takeDigs rest = ([], rest) →
    pFields fuel (sjFields (kv :: fs) ++ '}' :: rest) =
      some (kv :: fs, rest)
  | (k, v), [], fuel, rest, hf, hr => by
      cases fuel with
      | zero => exact absurd hf (Nat.not_lt_zero _)
      | succ f =>
          have h2 : (sjFields ((k, v) :: [])).length =
              (quoteChars k).length + 1 + (sjVal v).length := by
            simp [sjFields, sjFieldsTail]
            omega
          have hlenv : (sjVal v).length < f := by
            rw [h2] at hf
            omega
          have harg : sjFields ((k, v) :: []) ++ '}' :: rest =
              '"' :: (k.data.flatMap escChar ++
                ('"' :: (':' :: (sjVal v ++ '}' :: rest)))) := by
            simp [sjFields, sjFieldsTail, quoteChars]
          have hv := rt_val v f ('}' :: rest) hlenv (takeDigs_rbrace rest)
          rw [harg]
          simp only [pFields]
          simp [pStr_quoted, hv]
  | (k, v), kv2 :: fs, fuel, rest, hf, hr => by
      cases fuel with
      | zero => exact absurd hf (Nat.not_lt_zero _)
      | succ f =>
          have h2 : (sjFields ((k, v) :: kv2 :: fs)).length =
              (quoteChars k).length + 1 + (sjVal v).length + 1 +
                (sjFields (kv2 :: fs)).length := by
            simp [sjFields, sjFieldsTail_cons]
            omega
          have hlenv : (sjVal v).length < f := by
            rw [h2] at hf
            omega
          have hlenrec : (sjFields (kv2 :: fs)).length + 1 < f := by
            rw [h2] at hf
            omega
          have harg : sjFields ((k, v) :: kv2 :: fs) ++ '}' :: rest =
              '"' :: (k.data.flatMap escChar ++
                ('"' :: (':' :: (sjVal v ++
                  (',' :: (sjFields (kv2 :: fs) ++ '}' :: rest)))))) := by
            simp [sjFields, sjFieldsTail_cons, quoteChars]
          have hv := rt_val v f
            (',' :: (sjFields (kv2 :: fs) ++ '}' :: rest)) hlenv
            (takeDigs_comma _)
          have hrec := rt_fields kv2 fs f rest hlenrec hr
          rw [harg]
          simp only [pFields]
          simp [pStr_quoted, hv, hrec]

end

/-- Parsing inverts serialization on every JSON value. -/
theorem parse_stringify (v : Json) : parseJson (stringifyJson v) = some v := by
  have h := rt_val v ((sjVal v).length + 1) [] (by omega) rfl
  rw [List.append_nil] at h
  show (match pVal ((sjVal v).length + 1) (sjVal v) with
    | some (w, []) => some w
    | _ => none) = some v
  rw [h]

/-! ### The extended-message codec (chat storage) -/

/-- The `EXTENDED_MESSAGE_MARKER` constant. -/
def EXTENDED_MESSAGE_MARKER : String := "[[EXTENDED_MSG]]"

/-- The `ExtendedMessageData` interface: text plus optional tool calls
(opaque JSON values). -/
structure ExtendedMessageData where
  text : String
  toolCalls : Option (List Json)

/-- JavaScript property lookup on a parsed JSON object. -/
def lookupField : List (String × Json) → String → Option Json
  | [], _ => none
  | (k, v) :: rest, key => if k = key then some v else lookupField rest key

/-- Reading the parsed JSON value as `ExtendedMessageData` (the
TypeScript code returns `JSON.parse`'s result unchecked and its callers
read `.text` / `.toolCalls`); a value of a foreign shape — which no
claim reaches — is reported as `none`. -/
def emdOfJson : Json → Option ExtendedMessageData
  | .obj fs =>
      match lookupField fs "text" with
      | some (.str t) =>
          match lookupField fs "toolCalls" with
          | some (.arr tcs) => some ⟨t, some tcs⟩
          | none => some ⟨t, none⟩
          | some _ => none
      | _ => none
  | _ => none

/-- The `encodeExtendedMessage` function: plain text without tool calls,
otherwise the marker followed by `JSON.stringify({ text, toolCalls })`
(object keys in insertion order). -/
def encodeExtendedMessage (text : String) (toolCalls : Option (List Json)) :
    String :=
  match toolCalls with
  | none => text
  | some tcs =>
      if tcs.isEmpty then text
      else EXTENDED_MESSAGE_MARKER ++
        stringifyJson (.obj [("text", .str text), ("toolCalls", .arr tcs)])

/-- JavaScript `String.prototype.startsWith` (the marker is ASCII, so
UTF-16 units and characters agree). -/
def strStartsWith (s p : String) : Bool := p.data.isPrefixOf s.data

/-- The `decodeExtendedMessage` function: strip the marker and
`JSON.parse` the remainder; a parse failure is caught and yields
`{ text: content }`, as does content without the marker. -/
def decodeExtendedMessage (content : String) : Option ExtendedMessageData :=
  if strStartsWith content EXTENDED_MESSAGE_MARKER then
    match parseJson ⟨content.data.drop EXTENDED_MESSAGE_MARKER.data.length⟩ with
    | some v => emdOfJson v
    | none => some ⟨content, none⟩
  else some ⟨content, none⟩

theorem strStartsWith_append (s : String) :
    strStartsWith (EXTENDED_MESSAGE_MARKER ++ s) EXTENDED_MESSAGE_MARKER =
      true := by
  unfold strStartsWith
  rw [show (EXTENDED_MESSAGE_MARKER ++ s).data =
    EXTENDED_MESSAGE_MARKER.data ++ s.data from rfl]
  exact List.isPrefixOf_iff_prefix.mpr (List.prefix_append _ _)

theorem marker_drop (s : String) :
    (EXTENDED_MESSAGE_MARKER ++ s).data.drop
      EXTENDED_MESSAGE_MARKER.data.length = s.data := by
  rw [show (EXTENDED_MESSAGE_MARKER ++ s).data =
    EXTENDED_MESSAGE_MARKER.data ++ s.data from rfl]
  exact List.drop_left _ _

/-! ### C10 -/

/-- C10: the extended-message encoding round-trips: for text not itself
starting with the "[[EXTENDED_MSG]]" marker, encoding with a non-empty
tool-call list and decoding returns exactly the text and the tool calls;
with absent or empty tool calls the encoder returns the text unchanged
and the decoder on it returns just the text with no tool calls. -/
theorem extended_message_roundtrip (text : String) (tcs : List Json)
    (hmark : strStartsWith text EXTENDED_MESSAGE_MARKER = false)
    (hne : tcs ≠ []) :
    decodeExtendedMessage (encodeExtendedMessage text (some tcs)) =
      some ⟨text, some tcs⟩ ∧
    encodeExtendedMessage text none = text ∧
    encodeExtendedMessage text (some []) = text ∧
    decodeExtendedMessage text = some ⟨text, none⟩ := by
  refine ⟨?_, rfl, rfl, ?_⟩
  · have hempty : tcs.isEmpty = false := by
      cases tcs with
      | nil => exact absurd rfl hne
      | cons a t => rfl
    have henc : encodeExtendedMessage text (some tcs) =
        EXTENDED_MESSAGE_MARKER ++ stringifyJson
          (.obj [("text", .str text), ("toolCalls", .arr tcs)]) := by
      unfold encodeExtendedMessage
      simp [hempty]
    rw [henc]
    unfold decodeExtendedMessage
    rw [strStartsWith_append, if_pos rfl, marker_drop]
    rw [show (⟨(stringifyJson (.obj [("text", .str text),
      ("toolCalls", .arr tcs)])).data⟩ : String) = stringifyJson
        (.obj [("text", .str text), ("toolCalls", .arr tcs)]) from rfl]
    rw [parse_stringify]
    simp [emdOfJson, lookupField]
  · unfold decodeExtendedMessage
    rw [hmark]
    simp

/-- Witness for C10 at a concrete input: the message "hello" with one
tool call round-trips, and without tool calls it is stored and decoded
as plain text. -/
theorem extended_message_roundtrip_witness :
    decodeExtendedMessage (encodeExtendedMessage "hello"
        (some [Json.str "ok"])) =
      some ⟨"hello", some [Json.str "ok"]⟩ ∧
    encodeExtendedMessage "hello" none = "hello" ∧
    decodeExtendedMessage "hello" = some ⟨"hello", none⟩ := by
  have h := extended_message_roundtrip "hello" [Json.str "ok"]
    (by decide) (by simp)
  exact ⟨h.1, h.2.1, h.2.2.2⟩

end Chat
